import Mathlib

/-!
Shallow embedding of the ecotalk-server room/session engine (src/index.js).

Rooms live in an in-memory registry (`rooms = new Map()`); each room holds an
insertion-ordered participant map and a bounded message log.  JavaScript `Map`s
are modelled as insertion-ordered association lists (`JsMap`): `set` replaces
the value of an existing key in place, otherwise appends; `delete` removes the
entry; `values()` iterates in insertion order.  JavaScript `x || d` defaulting
is modelled by the `jsOr*` helpers on `Option`, with the source's falsiness
semantics (empty string and `0` are falsy, any array is truthy).  Socket
emissions are modelled as an `Event` list returned by each handler.
-/

set_option autoImplicit false

namespace EcoTalk

/-- JS `s || d` for an optional string field: `undefined` and `""` are falsy. -/
def jsOrStr (o : Option String) (d : String) : String :=
  match o with
  | some s => if s = "" then d else s
  | none => d

/-- JS `n || d` for an optional number field: `undefined` and `0` are falsy. -/
def jsOrNat (o : Option Nat) (d : Nat) : Nat :=
  match o with
  | some n => if n = 0 then d else n
  | none => d

/-- JS `b || d` for an optional boolean field: `undefined` and `false` are falsy. -/
def jsOrBool (o : Option Bool) (d : Bool) : Bool :=
  match o with
  | some b => if b then b else d
  | none => d

/-- A participant record as stored in `room.participants` (src/index.js lines 171-180). -/
structure Participant where
  id : String
  name : String
  avatar : String
  socketId : String
  isMuted : Bool
  isVideoEnabled : Bool
  isHost : Bool
  joinedAt : String
  deriving Repr, DecidableEq

/-- A chat message as stored in `room.messages` (src/index.js lines 225-231). -/
structure Message where
  id : String
  senderId : String
  senderName : String
  content : String
  timestamp : String
  deriving Repr, DecidableEq

/- Insertion-ordered association list modelling a JavaScript `Map` keyed by strings. -/
namespace JsMap

variable {α : Type}

/-- `Map.prototype.has`. -/
def hasKey (m : List (String × α)) (k : String) : Bool :=
  m.any (fun e => e.1 == k)

/-- `Map.prototype.get` (returns `undefined` when absent). -/
def get? (m : List (String × α)) (k : String) : Option α :=
  (List.find? (fun e => e.1 == k) m).map Prod.snd

/-- `Map.prototype.set`: replace in place when the key exists, else append. -/
def set : List (String × α) → String → α → List (String × α)
  | [], k, v => [(k, v)]
  | e :: t, k, v => if e.1 == k then (k, v) :: t else e :: set t k v

/-- `Map.prototype.delete`. -/
def del (m : List (String × α)) (k : String) : List (String × α) :=
  m.filter (fun e => !(e.1 == k))

/-- `Map.prototype.values()` as a list, in insertion order. -/
def values (m : List (String × α)) : List α :=
  m.map Prod.snd

end JsMap

/-- `room.participants`. -/
abbrev PMap := List (String × Participant)

/-- A room aggregate (src/index.js lines 100-112). -/
structure Room where
  id : String
  name : String
  description : String
  category : String
  languages : List String
  maxParticipants : Nat
  isPrivate : Bool
  createdAt : String
  createdBy : String
  participants : PMap
  messages : List Message
  deriving Repr, DecidableEq

/-- The global `rooms` map. -/
abbrev Registry := List (String × Room)

/-- Outbound socket emissions, reduced to the data the claims inspect. -/
inductive Event where
  | roomCreated (roomId : String)
  | roomAdded (roomId : String)
  | roomCreationError (err : String)
  | roomState (roomId : String)
  | roomError (err : String)
  | userJoined (userId : String)
  | userLeft (userId : String)
  | hostChanged (userId : String) (name : String)
  | participantsUpdated (ps : List Participant)
  | newMessage (m : Message)
  | signalOut (toSocketId : String) (fromId : String)
  | roomRemoved (roomId : String)
  deriving Repr, DecidableEq

/-- Payload of a `create-room` request (src/index.js line 86). -/
structure RoomSpec where
  id : Option String
  name : String
  description : Option String
  category : Option String
  languages : Option (List String)
  maxParticipants : Option Nat
  isPrivate : Option Bool
  deriving Repr

/-- The `create-room` handler (src/index.js lines 86-128).  `freshId` stands for
the `uuidv4()` call, `socketId` for `socket.id`, `now` for `new Date().toISOString()`. -/
def createRoom (reg : Registry) (spec : RoomSpec) (freshId socketId now : String) :
    Registry × List Event :=
  let roomId := jsOrStr spec.id freshId
  if JsMap.hasKey reg roomId then
    (reg, [Event.roomCreationError "Room ID already exists"])
  else
    let newRoom : Room :=
      { id := roomId
        name := spec.name
        description := jsOrStr spec.description ""
        category := jsOrStr spec.category "General"
        languages := spec.languages.getD ["English"]
        maxParticipants := jsOrNat spec.maxParticipants 10
        isPrivate := jsOrBool spec.isPrivate false
        createdAt := now
        createdBy := socketId
        participants := []
        messages := [] }
    (JsMap.set reg roomId newRoom, [Event.roomCreated roomId, Event.roomAdded roomId])

/-- The `user` payload of a `join-room` request (src/index.js line 131). -/
structure UserSpec where
  id : Option String
  name : String
  avatar : Option String
  isMuted : Option Bool
  isVideoEnabled : Option Bool
  deriving Repr

/-- The room synthesized when joining an unknown room id (src/index.js lines 139-151). -/
def autoCreatedRoom (roomId socketId now : String) : Room :=
  { id := roomId
    name := "Room " ++ roomId.take 6
    description := "Automatically created room"
    category := "General"
    languages := ["English"]
    maxParticipants := 10
    isPrivate := false
    createdAt := now
    createdBy := socketId
    participants := []
    messages := [] }

/-- The `join-room` handler (src/index.js lines 131-210). -/
def joinRoom (reg : Registry) (roomId : String) (user : UserSpec) (socketId now : String) :
    Registry × List Event :=
  let reg1 :=
    if JsMap.hasKey reg roomId then reg
    else JsMap.set reg roomId (autoCreatedRoom roomId socketId now)
  match JsMap.get? reg1 roomId with
  | none => (reg1, [])
  | some room =>
    if room.participants.length ≥ room.maxParticipants then
      (reg1, [Event.roomError "Room is full"])
    else
      let participant : Participant :=
        { id := jsOrStr user.id socketId
          name := user.name
          avatar := jsOrStr user.avatar ""
          socketId := socketId
          isMuted := jsOrBool user.isMuted true
          isVideoEnabled := jsOrBool user.isVideoEnabled false
          isHost := room.participants.length == 0
          joinedAt := now }
      let room1 := { room with
        participants := JsMap.set room.participants participant.id participant }
      (JsMap.set reg1 roomId room1,
       [Event.roomState roomId, Event.userJoined participant.id])

/-- `handleUserLeave` (src/index.js lines 456-539), state transition and emissions.
The `setTimeout` scheduled when the room empties is modelled separately as
`roomCleanupFire`. -/
def handleUserLeave (reg : Registry) (roomId userId : String) : Registry × List Event :=
  match JsMap.get? reg roomId with
  | none => (reg, [])
  | some room =>
    if JsMap.hasKey room.participants userId then
      match JsMap.get? room.participants userId with
      | none => (reg, [])
      | some user =>
        let parts := JsMap.del room.participants userId
        if parts.length == 0 then
          (JsMap.set reg roomId { room with participants := parts },
           [Event.userLeft userId, Event.participantsUpdated (JsMap.values parts)])
        else if user.isHost then
          match parts with
          | [] =>
            (JsMap.set reg roomId { room with participants := parts },
             [Event.userLeft userId, Event.participantsUpdated (JsMap.values parts)])
          | (k0, p0) :: rest =>
            let parts1 := (k0, { p0 with isHost := true }) :: rest
            (JsMap.set reg roomId { room with participants := parts1 },
             [Event.userLeft userId, Event.hostChanged p0.id p0.name,
              Event.participantsUpdated (JsMap.values parts1)])
        else
          (JsMap.set reg roomId { room with participants := parts },
           [Event.userLeft userId, Event.participantsUpdated (JsMap.values parts)])
    else (reg, [])

/-- The body of the 30-second `setTimeout` scheduled by `handleUserLeave` when a
room empties (src/index.js lines 502-509): re-check presence and emptiness at
fire time, delete only if still empty. -/
def roomCleanupFire (reg : Registry) (roomId : String) : Registry × List Event :=
  match JsMap.get? reg roomId with
  | some room =>
    if room.participants.length == 0 then
      (JsMap.del reg roomId, [Event.roomRemoved roomId])
    else (reg, [])
  | none => (reg, [])

/-- Payload of a `send-message` request (src/index.js line 218). -/
structure MessageSpec where
  id : Option String
  senderId : Option String
  senderName : Option String
  content : String
  timestamp : Option String
  deriving Repr

/-- The message record built by the `send-message` handler (src/index.js lines 225-231). -/
def mkMessage (spec : MessageSpec) (freshId socketId now : String) : Message :=
  { id := jsOrStr spec.id freshId
    senderId := jsOrStr spec.senderId socketId
    senderName := jsOrStr spec.senderName "Anonymous"
    content := spec.content
    timestamp := jsOrStr spec.timestamp now }

/-- The `send-message` handler (src/index.js lines 218-246): append, evict the
oldest entry when the log exceeds 100, broadcast. -/
def sendMessage (reg : Registry) (roomId : String) (spec : MessageSpec)
    (freshId socketId now : String) : Registry × List Event :=
  match JsMap.get? reg roomId with
  | none => (reg, [])
  | some room =>
    let m := mkMessage spec freshId socketId now
    let ms0 := room.messages ++ [m]
    let ms := if ms0.length > 100 then ms0.drop 1 else ms0
    (JsMap.set reg roomId { room with messages := ms }, [Event.newMessage m])

/-- The participant lookup used by the `signal` handler (src/index.js lines
297-300): first participant whose logical id or current socket id matches. -/
def findParticipant (m : PMap) (key : String) : Option Participant :=
  (JsMap.values m).find? (fun p => p.id == key || p.socketId == key)

/-- The `signal` handler (src/index.js lines 289-326): resolve both endpoints in
the room, relay to the recipient's current socket tagged with the sender's
logical id, silently drop otherwise. -/
def signalRelay (reg : Registry) (roomId toId : String) (fromRaw : Option String)
    (socketId : String) : List Event :=
  match JsMap.get? reg roomId with
  | none => []
  | some room =>
    let fromKey := jsOrStr fromRaw socketId
    match findParticipant room.participants fromKey, findParticipant room.participants toId with
    | some fp, some tp => [Event.signalOut tp.socketId fp.id]
    | _, _ => []

/-- A participant entry as shaped by `formatRoomForClient` (src/index.js lines 433-440). -/
structure ClientParticipant where
  id : String
  name : String
  avatar : String
  isMuted : Bool
  isVideoEnabled : Bool
  isHost : Bool
  deriving Repr, DecidableEq

/-- A room as shaped by `formatRoomForClient` (src/index.js lines 423-443). -/
structure ClientRoom where
  id : String
  name : String
  description : String
  category : String
  languages : List String
  maxParticipants : Nat
  isPrivate : Bool
  createdAt : String
  participants : List ClientParticipant
  participantCount : Nat
  deriving Repr, DecidableEq

/-- `formatRoomForClient` (src/index.js lines 423-443). -/
def formatRoomForClient (room : Room) : ClientRoom :=
  { id := room.id
    name := room.name
    description := room.description
    category := room.category
    languages := room.languages
    maxParticipants := room.maxParticipants
    isPrivate := room.isPrivate
    createdAt := room.createdAt
    participants := (JsMap.values room.participants).map (fun p =>
      { id := p.id
        name := p.name
        avatar := p.avatar
        isMuted := p.isMuted
        isVideoEnabled := p.isVideoEnabled
        isHost := p.isHost })
    participantCount := room.participants.length }

/-- The `get-rooms` handler (src/index.js lines 329-340): format every room,
keep the non-private ones with spare capacity. -/
def getRooms (reg : Registry) : List ClientRoom :=
  (reg.map (fun e => formatRoomForClient e.2)).filter
    (fun r => !r.isPrivate && decide (r.participants.length < r.maxParticipants))

/-- A join or leave operation, for stating invariants over operation sequences. -/
inductive RoomOp where
  | join (roomId : String) (user : UserSpec) (socketId now : String)
  | leave (roomId : String) (userId : String)

/-- Apply one join/leave operation to the registry, discarding emissions. -/
def applyRoomOp (reg : Registry) : RoomOp → Registry
  | .join roomId user socketId now => (joinRoom reg roomId user socketId now).1
  | .leave roomId userId => (handleUserLeave reg roomId userId).1

/-- Run a sequence of join/leave operations from a registry. -/
def runRoomOps (reg : Registry) (ops : List RoomOp) : Registry :=
  ops.foldl applyRoomOp reg

/-- Number of participants flagged as host. -/
def hostCount (m : PMap) : Nat :=
  m.countP (fun e => e.2.isHost)

/-- A `send-message` operation, for stating invariants over message sequences. -/
structure MsgOp where
  roomId : String
  spec : MessageSpec
  freshId : String
  socketId : String
  now : String

/-- Run a sequence of `send-message` operations, discarding emissions. -/
def runMsgOps (reg : Registry) (ops : List MsgOp) : Registry :=
  ops.foldl (fun r op => (sendMessage r op.roomId op.spec op.freshId op.socketId op.now).1) reg

namespace JsMap

variable {α : Type}

theorem get?_cons (e : String × α) (t : List (String × α)) (k : String) :
    get? (e :: t) k = if e.1 == k then some e.2 else get? t k := by
  rw [get?, List.find?_cons]
  cases h : e.1 == k <;> simp [h, get?]

theorem hasKey_cons (e : String × α) (t : List (String × α)) (k : String) :
    hasKey (e :: t) k = (e.1 == k || hasKey t k) := by
  simp [hasKey]

theorem hasKey_eq_isSome (m : List (String × α)) (k : String) :
    hasKey m k = (get? m k).isSome := by
  induction m with
  | nil => rfl
  | cons e t ih =>
    rw [hasKey_cons, get?_cons]
    cases h : e.1 == k <;> simp [ih]

theorem hasKey_of_get? {m : List (String × α)} {k : String} {v : α}
    (h : get? m k = some v) : hasKey m k = true := by
  rw [hasKey_eq_isSome, h]
  rfl

theorem get?_eq_none_of_not_hasKey {m : List (String × α)} {k : String}
    (h : hasKey m k = false) : get? m k = none := by
  rw [hasKey_eq_isSome] at h
  cases hg : get? m k
  · rfl
  · rw [hg] at h
    simp at h

theorem set_cons_eq {e : String × α} {t : List (String × α)} {k : String} {v : α}
    (h : (e.1 == k) = true) : set (e :: t) k v = (k, v) :: t := by
  simp [set, h]

theorem set_cons_ne {e : String × α} {t : List (String × α)} {k : String} {v : α}
    (h : (e.1 == k) = false) : set (e :: t) k v = e :: set t k v := by
  simp [set, h]

theorem get?_set_self (m : List (String × α)) (k : String) (v : α) :
    get? (set m k v) k = some v := by
  induction m with
  | nil => simp [set, get?_cons]
  | cons e t ih =>
    rw [set]
    cases h : e.1 == k <;> simp [h, get?_cons, ih]

theorem get?_set_ne (m : List (String × α)) (k : String) (v : α) {k' : String}
    (hne : k' ≠ k) : get? (set m k v) k' = get? m k' := by
  induction m with
  | nil =>
    have : (k == k') = false := by
      simp [Ne.symm hne]
    simp [set, get?_cons, this, get?]
  | cons e t ih =>
    cases h : e.1 == k
    · rw [set_cons_ne h, get?_cons, get?_cons, ih]
    · have hk : e.1 = k := eq_of_beq h
      have h1 : (k == k') = false := by simp [Ne.symm hne]
      have h2 : (e.1 == k') = false := by simp [hk, Ne.symm hne]
      rw [set_cons_eq h, get?_cons, get?_cons]
      simp [h1, h2]

theorem get?_set_cases (m : List (String × α)) (k : String) (v : α) (k' : String) :
    get? (set m k v) k' = if k' = k then some v else get? m k' := by
  by_cases h : k' = k
  · subst h
    simp [get?_set_self]
  · simp [h, get?_set_ne m k v h]

theorem length_set (m : List (String × α)) (k : String) (v : α) :
    (set m k v).length = if hasKey m k then m.length else m.length + 1 := by
  induction m with
  | nil => simp [set, hasKey]
  | cons e t ih =>
    cases h : e.1 == k
    · rw [set_cons_ne h, hasKey_cons, h]
      simp only [Bool.false_or, List.length_cons, ih]
      cases hk : hasKey t k <;> simp
    · rw [set_cons_eq h, hasKey_cons, h]
      simp

theorem map_fst_set (m : List (String × α)) (k : String) (v : α) :
    (set m k v).map Prod.fst =
      if hasKey m k then m.map Prod.fst else m.map Prod.fst ++ [k] := by
  induction m with
  | nil => simp [set, hasKey]
  | cons e t ih =>
    cases h : e.1 == k
    · rw [set_cons_ne h, hasKey_cons, h]
      simp only [Bool.false_or, List.map_cons, ih]
      cases hk : hasKey t k <;> simp
    · have hk : e.1 = k := eq_of_beq h
      rw [set_cons_eq h, hasKey_cons, h]
      simp [hk]

theorem not_mem_keys_of_not_hasKey {m : List (String × α)} {k : String}
    (h : hasKey m k = false) : k ∉ m.map Prod.fst := by
  intro hmem
  obtain ⟨e, he, hfst⟩ := List.mem_map.mp hmem
  rw [hasKey] at h
  have := List.any_eq_false.mp h e he
  simp [hfst] at this

theorem nodup_keys_set {m : List (String × α)} {k : String} {v : α}
    (h : (m.map Prod.fst).Nodup) : ((set m k v).map Prod.fst).Nodup := by
  rw [map_fst_set]
  cases hk : hasKey m k
  · simp only [Bool.false_eq_true, if_false]
    rw [List.nodup_append]
    exact ⟨h, List.nodup_singleton k, by
      intro a ha hb
      rw [List.mem_singleton] at hb
      subst hb
      exact not_mem_keys_of_not_hasKey hk ha⟩
  · simpa using h

theorem del_cons (e : String × α) (t : List (String × α)) (k : String) :
    del (e :: t) k = if e.1 == k then del t k else e :: del t k := by
  cases h : e.1 == k <;> simp [del, h]

theorem nodup_keys_del {m : List (String × α)} (k : String)
    (h : (m.map Prod.fst).Nodup) : ((del m k).map Prod.fst).Nodup := by
  exact h.sublist (List.Sublist.map Prod.fst (List.filter_sublist m))

theorem hasKey_del_self (m : List (String × α)) (k : String) :
    hasKey (del m k) k = false := by
  induction m with
  | nil => rfl
  | cons e t ih =>
    rw [del_cons]
    cases h : e.1 == k <;> simp [h, hasKey_cons, ih]

theorem del_eq_self_of_not_hasKey {m : List (String × α)} {k : String}
    (h : hasKey m k = false) : del m k = m := by
  rw [del, List.filter_eq_self]
  intro e he
  rw [hasKey] at h
  simp [List.any_eq_false.mp h e he]

end JsMap

theorem hostCount_nil : hostCount [] = 0 := rfl

theorem hostCount_cons (e : String × Participant) (t : PMap) :
    hostCount (e :: t) = hostCount t + if e.2.isHost then 1 else 0 := by
  simp [hostCount, List.countP_cons]

theorem hostCount_set_le {p : Participant} (hp : p.isHost = false)
    (m : PMap) (k : String) : hostCount (JsMap.set m k p) ≤ hostCount m := by
  induction m with
  | nil => simp [JsMap.set, hostCount_cons, hostCount_nil, hp]
  | cons e t ih =>
    cases h : e.1 == k
    · rw [JsMap.set_cons_ne h, hostCount_cons, hostCount_cons]
      exact Nat.add_le_add_right ih _
    · rw [JsMap.set_cons_eq h, hostCount_cons, hostCount_cons, hp]
      simp only [Bool.false_eq_true, if_false]
      exact Nat.le_add_right _ _

theorem hostCount_del_le (m : PMap) (k : String) :
    hostCount (JsMap.del m k) ≤ hostCount m := by
  induction m with
  | nil => simp [JsMap.del]
  | cons e t ih =>
    cases h : e.1 == k
    · rw [JsMap.del_cons, if_neg (by simp [h]), hostCount_cons, hostCount_cons]
      exact Nat.add_le_add_right ih _
    · rw [JsMap.del_cons, if_pos (by simp [h]), hostCount_cons]
      exact le_trans ih (Nat.le_add_right _ _)

theorem one_le_hostCount_of_get? {m : PMap} {k : String} {u : Participant}
    (hg : JsMap.get? m k = some u) (hu : u.isHost = true) : 1 ≤ hostCount m := by
  induction m with
  | nil => simp [JsMap.get?] at hg
  | cons e t ih =>
    rw [JsMap.get?_cons] at hg
    rw [hostCount_cons]
    by_cases h : (e.1 == k) = true
    · rw [if_pos h] at hg
      have : e.2 = u := by injection hg
      rw [this, hu, if_pos rfl]
      omega
    · rw [if_neg h] at hg
      have := ih hg
      omega

theorem hostCount_del_of_host {m : PMap} {k : String} {u : Participant}
    (hnd : (m.map Prod.fst).Nodup) (hg : JsMap.get? m k = some u)
    (hu : u.isHost = true) (hle : hostCount m ≤ 1) :
    hostCount (JsMap.del m k) = 0 := by
  induction m with
  | nil => simp [JsMap.get?] at hg
  | cons e t ih =>
    rw [List.map_cons, List.nodup_cons] at hnd
    obtain ⟨hnotmem, hndt⟩ := hnd
    rw [JsMap.get?_cons] at hg
    rw [JsMap.del_cons]
    rw [hostCount_cons] at hle
    by_cases h : (e.1 == k) = true
    · rw [if_pos h]
      have he2 : e.2 = u := by
        rw [if_pos h] at hg
        injection hg
      have hkeq : e.1 = k := eq_of_beq h
      have hnokey : JsMap.hasKey t k = false := by
        cases hht : JsMap.hasKey t k
        · rfl
        · exfalso
          rw [JsMap.hasKey, List.any_eq_true] at hht
          obtain ⟨e', he', hbeq⟩ := hht
          have : e'.1 = k := eq_of_beq (by simpa using hbeq)
          exact hnotmem (by
            rw [hkeq, ← this]
            exact List.mem_map_of_mem Prod.fst he')
      rw [JsMap.del_eq_self_of_not_hasKey hnokey]
      rw [he2, hu] at hle
      simp at hle
      omega
    · rw [if_neg h]
      rw [if_neg h] at hg
      have h1 := one_le_hostCount_of_get? hg hu
      rw [hostCount_cons]
      have : hostCount (JsMap.del t k) = 0 := ih hndt hg (by omega)
      rw [this]
      omega

/-- Room well-formedness maintained by every handler: participant keys are
unique (a JavaScript `Map` cannot hold duplicate keys) and at most one
participant is flagged as host. -/
def RoomWF (room : Room) : Prop :=
  (room.participants.map Prod.fst).Nodup ∧ hostCount room.participants ≤ 1

/-- Registry well-formedness: every stored room is well-formed. -/
def RegWF (reg : Registry) : Prop :=
  ∀ rid room, JsMap.get? reg rid = some room → RoomWF room

theorem regWF_nil : RegWF [] := by
  intro rid room hg
  simp [JsMap.get?] at hg

theorem regWF_set {reg : Registry} {rid : String} {room : Room}
    (h : RegWF reg) (hr : RoomWF room) : RegWF (JsMap.set reg rid room) := by
  intro rid' room' hg
  rw [JsMap.get?_set_cases] at hg
  split at hg
  · injection hg with hh
    rw [← hh]
    exact hr
  · exact h _ _ hg

theorem roomWF_autoCreated (roomId socketId now : String) :
    RoomWF (autoCreatedRoom roomId socketId now) := by
  constructor
  · simp [autoCreatedRoom]
  · simp [autoCreatedRoom, hostCount]

theorem regWF_join {reg : Registry} (roomId : String) (user : UserSpec)
    (sid now : String) (h : RegWF reg) : RegWF (joinRoom reg roomId user sid now).1 := by
  have h1 : RegWF (if JsMap.hasKey reg roomId then reg
      else JsMap.set reg roomId (autoCreatedRoom roomId sid now)) := by
    split
    · exact h
    · exact regWF_set h (roomWF_autoCreated roomId sid now)
  rw [joinRoom]
  generalize hg1 : (if JsMap.hasKey reg roomId then reg
      else JsMap.set reg roomId (autoCreatedRoom roomId sid now)) = reg1
  rw [hg1] at h1
  cases hmr : JsMap.get? reg1 roomId with
  | none => simpa using h1
  | some room =>
    obtain ⟨hnd, hhc⟩ := h1 roomId room hmr
    simp only []
    split
    · exact h1
    · apply regWF_set h1
      constructor
      · exact JsMap.nodup_keys_set hnd
      · by_cases hlen : room.participants = []
        · rw [hlen]
          simp [JsMap.set, hostCount_cons, hostCount_nil]
        · have hfalse : (room.participants.length == 0) = false := by
            cases hp : room.participants
            · exact absurd hp hlen
            · simp
          exact le_trans (hostCount_set_le (by simp [hfalse]) _ _) hhc

theorem regWF_leave {reg : Registry} (roomId userId : String)
    (h : RegWF reg) : RegWF (handleUserLeave reg roomId userId).1 := by
  rw [handleUserLeave]
  cases hmr : JsMap.get? reg roomId with
  | none => simpa using h
  | some room =>
    obtain ⟨hnd, hhc⟩ := h roomId room hmr
    simp only []
    split
    · cases hgu : JsMap.get? room.participants userId with
      | none => simpa using h
      | some user =>
        simp only []
        have hndp : ((JsMap.del room.participants userId).map Prod.fst).Nodup :=
          JsMap.nodup_keys_del userId hnd
        have hdel_le : hostCount (JsMap.del room.participants userId) ≤ 1 :=
          le_trans (hostCount_del_le room.participants userId) hhc
        split
        · exact regWF_set h ⟨hndp, hdel_le⟩
        · split
          · cases hp : JsMap.del room.participants userId with
            | nil => exact regWF_set h ⟨by simp, by simpa [hp] using hdel_le⟩
            | cons e rest =>
              obtain ⟨k0, p0⟩ := e
              apply regWF_set h
              constructor
              · simpa [hp] using hndp
              · have h0 : hostCount (JsMap.del room.participants userId) = 0 := by
                  apply hostCount_del_of_host hnd hgu _ hhc
                  assumption
                rw [hp, hostCount_cons] at h0
                have hr0 : hostCount rest = 0 := by omega
                rw [hostCount_cons]
                simp [hr0]
          · exact regWF_set h ⟨hndp, hdel_le⟩
    · simpa using h

theorem regWF_runRoomOps {reg : Registry} (ops : List RoomOp)
    (h : RegWF reg) : RegWF (runRoomOps reg ops) := by
  induction ops generalizing reg with
  | nil => exact h
  | cons op t ih =>
    rw [runRoomOps, List.foldl_cons]
    cases op with
    | join roomId user sid now => exact ih (regWF_join roomId user sid now h)
    | leave roomId userId => exact ih (regWF_leave roomId userId h)

theorem jsOrBool_true (o : Option Bool) : jsOrBool o true = true := by
  cases o with
  | none => rfl
  | some b => cases b <;> rfl

/-- A leave keeps room state unless the participant is found, in which case it
replaces the room by one from which the participant's key is gone. -/
theorem leave_result_cases (reg : Registry) (roomId userId : String) :
    (handleUserLeave reg roomId userId = (reg, []) ∧
       ∀ room, JsMap.get? reg roomId = some room →
         JsMap.hasKey room.participants userId = false) ∨
    (∃ roomX, (handleUserLeave reg roomId userId).1 = JsMap.set reg roomId roomX ∧
       JsMap.hasKey roomX.participants userId = false) := by
  rw [handleUserLeave]
  cases hmr : JsMap.get? reg roomId with
  | none =>
    left
    refine ⟨rfl, fun room h => ?_⟩
    cases h
  | some room =>
    simp only []
    cases hhk : JsMap.hasKey room.participants userId
    · rw [if_neg (by decide)]
      left
      refine ⟨rfl, fun room' h' => ?_⟩
      injection h' with hh
      rw [← hh]
      exact hhk
    · rw [if_pos rfl]
      cases hgu : JsMap.get? room.participants userId with
      | none =>
        rw [JsMap.hasKey_eq_isSome, hgu] at hhk
        simp at hhk
      | some user =>
        simp only []
        have hdel : JsMap.hasKey (JsMap.del room.participants userId) userId = false :=
          JsMap.hasKey_del_self room.participants userId
        right
        split
        · exact ⟨_, rfl, hdel⟩
        · split
          · cases hp : JsMap.del room.participants userId with
            | nil =>
              refine ⟨_, rfl, ?_⟩
              rw [hp] at hdel
              exact hdel
            | cons e rest =>
              obtain ⟨k0, p0⟩ := e
              refine ⟨_, rfl, ?_⟩
              rw [hp, JsMap.hasKey_cons] at hdel
              rw [JsMap.hasKey_cons]
              exact hdel
          · exact ⟨_, rfl, hdel⟩

/-- A leave for an id absent from the room (or for an absent room) is a no-op. -/
theorem leave_noop {reg : Registry} {roomId userId : String}
    (h : ∀ room, JsMap.get? reg roomId = some room →
      JsMap.hasKey room.participants userId = false) :
    handleUserLeave reg roomId userId = (reg, []) := by
  rw [handleUserLeave]
  cases hmr : JsMap.get? reg roomId with
  | none => rfl
  | some room =>
    simp only []
    rw [h room hmr]
    rw [if_neg (by decide)]

/-- C6: calling leave twice for the same participant id is a no-op the second
time: the registry is unchanged and no event (in particular no second
user-left) is emitted. -/
theorem claim_C6_leave_idempotent (reg : Registry) (roomId userId : String) :
    handleUserLeave (handleUserLeave reg roomId userId).1 roomId userId
      = ((handleUserLeave reg roomId userId).1, []) := by
  rcases leave_result_cases reg roomId userId with ⟨heq, habs⟩ | ⟨roomX, heq, hnk⟩
  · rw [heq]
    exact leave_noop habs
  · rw [heq]
    apply leave_noop
    intro room' h'
    rw [JsMap.get?_set_self] at h'
    injection h' with hh
    rw [← hh]
    exact hnk

/-- C10: a successful join always stores the participant with `isMuted = true`
(the handler computes `user.isMuted || true`), whatever the request supplied. -/
theorem claim_C10_isMuted_always_true (reg : Registry) (roomId : String)
    (user : UserSpec) (sid now : String)
    (h : ∀ room, JsMap.get? reg roomId = some room →
      room.participants.length < room.maxParticipants) :
    ∃ room', JsMap.get? (joinRoom reg roomId user sid now).1 roomId = some room' ∧
      ∃ p, JsMap.get? room'.participants (jsOrStr user.id sid) = some p ∧
        p.isMuted = true := by
  rw [joinRoom]
  cases hk : JsMap.hasKey reg roomId
  · rw [if_neg (by decide)]
    rw [JsMap.get?_set_self]
    simp only []
    rw [if_neg (by simp [autoCreatedRoom])]
    refine ⟨_, JsMap.get?_set_self _ _ _, _, JsMap.get?_set_self _ _ _, ?_⟩
    exact jsOrBool_true user.isMuted
  · rw [if_pos rfl]
    cases hmr : JsMap.get? reg roomId with
    | none =>
      rw [JsMap.hasKey_eq_isSome, hmr] at hk
      simp at hk
    | some room =>
      simp only []
      rw [if_neg (by have := h room hmr; omega)]
      refine ⟨_, JsMap.get?_set_self _ _ _, _, JsMap.get?_set_self _ _ _, ?_⟩
      exact jsOrBool_true user.isMuted

/-- Witness for C10 at a concrete input with `isMuted = false` requested. -/
theorem claim_C10_isMuted_always_true_witness :
    (∀ room, JsMap.get? ([] : Registry) "r" = some room →
      room.participants.length < room.maxParticipants) ∧
    (∃ room', JsMap.get? (joinRoom [] "r" ⟨some "alice", "Alice", none, some false, none⟩ "s1" "t1").1 "r" = some room' ∧
      ∃ p, JsMap.get? room'.participants (jsOrStr (some "alice") "s1") = some p ∧
        p.isMuted = true) :=
  ⟨fun room h => by simp [JsMap.get?] at h,
   claim_C10_isMuted_always_true [] "r" ⟨some "alice", "Alice", none, some false, none⟩ "s1" "t1"
     (fun room h => by simp [JsMap.get?] at h)⟩

/-- C3: joining a room whose participant count equals `maxParticipants` fails
with the room-full error and leaves the registry (hence the room) unchanged. -/
theorem claim_C3_room_full (reg : Registry) (roomId : String) (user : UserSpec)
    (sid now : String) (room : Room)
    (hroom : JsMap.get? reg roomId = some room)
    (hfull : room.participants.length = room.maxParticipants) :
    joinRoom reg roomId user sid now = (reg, [Event.roomError "Room is full"]) := by
  have hk : JsMap.hasKey reg roomId = true := JsMap.hasKey_of_get? hroom
  rw [joinRoom, hk]
  rw [if_pos rfl, hroom]
  simp only []
  rw [if_pos (by omega)]

/-- Witness for C3: a one-participant room with capacity one rejects a join. -/
def c3room : Room :=
  { id := "r", name := "R", description := "", category := "General",
    languages := ["English"], maxParticipants := 1, isPrivate := false,
    createdAt := "t0", createdBy := "sa",
    participants := [("a", ⟨"a", "A", "", "sa", true, false, true, "t0"⟩)],
    messages := [] }

theorem claim_C3_room_full_witness :
    JsMap.get? [("r", c3room)] "r" = some c3room ∧
    c3room.participants.length = c3room.maxParticipants ∧
    joinRoom [("r", c3room)] "r" ⟨some "b", "B", none, none, none⟩ "sb" "t1"
      = ([("r", c3room)], [Event.roomError "Room is full"]) :=
  ⟨rfl, rfl,
   claim_C3_room_full [("r", c3room)] "r" ⟨some "b", "B", none, none, none⟩ "sb" "t1" c3room rfl rfl⟩

/-- C4: signal relay is a silent no-op when the recipient does not resolve, and
on success delivers exactly one payload to the resolved recipient's current
socket, tagged with the resolved sender's logical participant id. -/
theorem claim_C4_signal_routing (reg : Registry) (roomId toId : String)
    (fromRaw : Option String) (sid : String) (room : Room)
    (hroom : JsMap.get? reg roomId = some room) :
    (findParticipant room.participants toId = none →
       signalRelay reg roomId toId fromRaw sid = []) ∧
    (∀ fp tp, findParticipant room.participants (jsOrStr fromRaw sid) = some fp →
       findParticipant room.participants toId = some tp →
       signalRelay reg roomId toId fromRaw sid = [Event.signalOut tp.socketId fp.id]) := by
  constructor
  · intro hto
    rw [signalRelay, hroom]
    simp only []
    rw [hto]
    cases hf : findParticipant room.participants (jsOrStr fromRaw sid) <;> rfl
  · intro fp tp hf ht
    rw [signalRelay, hroom]
    simp only []
    rw [hf, ht]

/-- Witness for C4 on a two-participant room. -/
def c4room : Room :=
  { id := "r", name := "R", description := "", category := "General",
    languages := ["English"], maxParticipants := 10, isPrivate := false,
    createdAt := "t0", createdBy := "sa",
    participants := [("a", ⟨"a", "A", "", "sa", true, false, true, "t0"⟩),
                     ("b", ⟨"b", "B", "", "sb", true, false, false, "t0"⟩)],
    messages := [] }

theorem claim_C4_signal_routing_witness :
    JsMap.get? [("r", c4room)] "r" = some c4room ∧
    (findParticipant c4room.participants "nobody" = none →
      signalRelay [("r", c4room)] "r" "nobody" (some "a") "sa" = []) ∧
    signalRelay [("r", c4room)] "r" "nobody" (some "a") "sa" = [] ∧
    signalRelay [("r", c4room)] "r" "b" (some "a") "sa" = [Event.signalOut "sb" "a"] :=
  ⟨rfl,
   (claim_C4_signal_routing [("r", c4room)] "r" "nobody" (some "a") "sa" c4room rfl).1,
   (claim_C4_signal_routing [("r", c4room)] "r" "nobody" (some "a") "sa" c4room rfl).1 rfl,
   (claim_C4_signal_routing [("r", c4room)] "r" "b" (some "a") "sa" c4room rfl).2
     ⟨"a", "A", "", "sa", true, false, true, "t0"⟩
     ⟨"b", "B", "", "sb", true, false, false, "t0"⟩ rfl rfl⟩

/-- C1: starting from the empty registry, after any sequence of join/leave
operations every room has at most one participant with `isHost = true`, and
none when the participant map is empty. -/
theorem claim_C1_host_at_most_one (ops : List RoomOp) (roomId : String) (room : Room)
    (h : JsMap.get? (runRoomOps [] ops) roomId = some room) :
    hostCount room.participants ≤ 1 ∧
      (room.participants = [] → hostCount room.participants = 0) :=
  ⟨(regWF_runRoomOps ops regWF_nil roomId room h).2,
   fun he => by rw [he]; rfl⟩

/-- Witness for C1: one join into a fresh (auto-created) room. -/
def c1room : Room :=
  { id := "r", name := "Room r", description := "Automatically created room",
    category := "General", languages := ["English"], maxParticipants := 10,
    isPrivate := false, createdAt := "t1", createdBy := "s1",
    participants := [("alice", ⟨"alice", "Alice", "", "s1", true, false, true, "t1"⟩)],
    messages := [] }

theorem claim_C1_host_at_most_one_witness :
    JsMap.get? (runRoomOps []
        [RoomOp.join "r" ⟨some "alice", "Alice", none, none, none⟩ "s1" "t1"]) "r"
      = some c1room ∧
    (hostCount c1room.participants ≤ 1 ∧
      (c1room.participants = [] → hostCount c1room.participants = 0)) :=
  ⟨rfl,
   claim_C1_host_at_most_one
     [RoomOp.join "r" ⟨some "alice", "Alice", none, none, none⟩ "s1" "t1"] "r" c1room rfl⟩

theorem set_ne_nil {α : Type} (m : List (String × α)) (k : String) (v : α) :
    JsMap.set m k v ≠ [] := by
  cases m with
  | nil => simp [JsMap.set]
  | cons e t =>
    cases h : e.1 == k
    · rw [JsMap.set_cons_ne h]
      simp
    · rw [JsMap.set_cons_eq h]
      simp

/-- The deferred cleanup does nothing when the room is non-empty at fire time. -/
theorem roomCleanupFire_noop {reg : Registry} {roomId : String} {room : Room}
    (hroom : JsMap.get? reg roomId = some room) (hne : room.participants ≠ []) :
    roomCleanupFire reg roomId = (reg, []) := by
  rw [roomCleanupFire, hroom]
  simp only []
  rw [if_neg (by simp [List.length_eq_zero, hne])]

/-- C5: a leave never destroys the room synchronously (the room survives, the
destruction is delegated to the scheduled check), the scheduled check deletes
nothing when the room is non-empty at fire time, and after a rejoin (any join
into the room, with positive capacity) the fire is a no-op. -/
theorem claim_C5_delayed_destruction (reg : Registry) (roomId : String) (room : Room)
    (hroom : JsMap.get? reg roomId = some room) :
    (∀ userId, ∃ room1,
        JsMap.get? (handleUserLeave reg roomId userId).1 roomId = some room1) ∧
    (room.participants ≠ [] → roomCleanupFire reg roomId = (reg, [])) ∧
    (∀ user sid now, 0 < room.maxParticipants →
        roomCleanupFire (joinRoom reg roomId user sid now).1 roomId
          = ((joinRoom reg roomId user sid now).1, [])) := by
  refine ⟨?_, ?_, ?_⟩
  · intro userId
    rcases leave_result_cases reg roomId userId with ⟨heq, _⟩ | ⟨roomX, heq, _⟩
    · rw [heq]
      exact ⟨room, hroom⟩
    · rw [heq]
      exact ⟨roomX, JsMap.get?_set_self _ _ _⟩
  · intro hne
    exact roomCleanupFire_noop hroom hne
  · intro user sid now hmax
    have hk : JsMap.hasKey reg roomId = true := JsMap.hasKey_of_get? hroom
    rw [joinRoom, hk]
    rw [if_pos rfl, hroom]
    simp only []
    split
    · refine roomCleanupFire_noop hroom ?_
      intro hnil
      rename_i hfull
      rw [hnil] at hfull
      simp at hfull
      omega
    · exact roomCleanupFire_noop (JsMap.get?_set_self _ _ _) (set_ne_nil _ _ _)

/-- Witness for C5 on a one-participant room. -/
def c5room : Room :=
  { id := "r", name := "R", description := "", category := "General",
    languages := ["English"], maxParticipants := 10, isPrivate := false,
    createdAt := "t0", createdBy := "sa",
    participants := [("a", ⟨"a", "A", "", "sa", true, false, true, "t0"⟩)],
    messages := [] }

theorem claim_C5_delayed_destruction_witness :
    JsMap.get? [("r", c5room)] "r" = some c5room ∧
    (∃ room1, JsMap.get? (handleUserLeave [("r", c5room)] "r" "a").1 "r" = some room1) ∧
    roomCleanupFire [("r", c5room)] "r" = ([("r", c5room)], []) ∧
    roomCleanupFire
        (joinRoom [("r", c5room)] "r" ⟨some "b", "B", none, none, none⟩ "sb" "t1").1 "r"
      = ((joinRoom [("r", c5room)] "r" ⟨some "b", "B", none, none, none⟩ "sb" "t1").1, []) :=
  ⟨rfl,
   (claim_C5_delayed_destruction [("r", c5room)] "r" c5room rfl).1 "a",
   (claim_C5_delayed_destruction [("r", c5room)] "r" c5room rfl).2.1 (by simp [c5room]),
   (claim_C5_delayed_destruction [("r", c5room)] "r" c5room rfl).2.2
     ⟨some "b", "B", none, none, none⟩ "sb" "t1" (by decide)⟩

/-- One send-message step preserves the 100-message bound in every room. -/
theorem msgBound_send {reg : Registry} (roomId : String) (spec : MessageSpec)
    (freshId sid now : String)
    (h : ∀ rid r, JsMap.get? reg rid = some r → r.messages.length ≤ 100) :
    ∀ rid r, JsMap.get? (sendMessage reg roomId spec freshId sid now).1 rid = some r →
      r.messages.length ≤ 100 := by
  intro rid r hg
  cases hmr : JsMap.get? reg roomId with
  | none =>
    rw [sendMessage, hmr] at hg
    exact h rid r hg
  | some room =>
    rw [sendMessage, hmr] at hg
    simp only [] at hg
    rw [JsMap.get?_set_cases] at hg
    split at hg
    · injection hg with hh
      rw [← hh]
      have hb := h roomId room hmr
      simp only []
      split
      · rename_i hgt
        simp only [List.length_drop, List.length_append, List.length_singleton]
        omega
      · rename_i hle
        simp only [List.length_append, List.length_singleton, Nat.not_lt] at hle ⊢
        omega
    · exact h rid r hg

/-- A sequence of send-message operations preserves the bound. -/
theorem msgBound_run (reg : Registry) (ops : List MsgOp)
    (h : ∀ rid r, JsMap.get? reg rid = some r → r.messages.length ≤ 100) :
    ∀ rid r, JsMap.get? (runMsgOps reg ops) rid = some r → r.messages.length ≤ 100 := by
  induction ops generalizing reg with
  | nil => exact h
  | cons op t ih =>
    rw [runMsgOps, List.foldl_cons]
    exact ih _ (msgBound_send op.roomId op.spec op.freshId op.socketId op.now h)

/-- C2: the message log never exceeds 100 entries under any sequence of
send-message operations, and appending to a log of 100 evicts exactly the
oldest entry (the result is the old log's tail followed by the new message). -/
theorem claim_C2_message_log_bound (reg : Registry) (ops : List MsgOp)
    (roomId : String) (spec : MessageSpec) (freshId sid now : String)
    (hbound : ∀ rid r, JsMap.get? reg rid = some r → r.messages.length ≤ 100) :
    (∀ rid r, JsMap.get? (runMsgOps reg ops) rid = some r → r.messages.length ≤ 100) ∧
    (∀ room, JsMap.get? reg roomId = some room → room.messages.length = 100 →
      ∃ room', JsMap.get? (sendMessage reg roomId spec freshId sid now).1 roomId = some room' ∧
        room'.messages = room.messages.drop 1 ++ [mkMessage spec freshId sid now] ∧
        mkMessage spec freshId sid now ∈ room'.messages ∧
        (∀ h0, room.messages.head? = some h0 → h0 ∉ room.messages.drop 1 →
          h0 ≠ mkMessage spec freshId sid now → h0 ∉ room'.messages)) := by
  refine ⟨msgBound_run reg ops hbound, ?_⟩
  intro room hroom h100
  rw [sendMessage, hroom]
  simp only []
  rw [if_pos (by simp [h100])]
  have hms : ((room.messages ++ [mkMessage spec freshId sid now]).drop 1)
      = room.messages.drop 1 ++ [mkMessage spec freshId sid now] :=
    List.drop_append_of_le_length (by omega)
  refine ⟨_, JsMap.get?_set_self _ _ _, ?_, ?_, ?_⟩
  · simpa using hms
  · simp only []
    rw [hms]
    exact List.mem_append_right _ (List.mem_singleton_self _)
  · intro h0 hhead hnotin hne
    simp only []
    rw [hms]
    intro hmem
    rcases List.mem_append.mp hmem with hmem1 | hmem2
    · exact hnotin hmem1
    · rw [List.mem_singleton] at hmem2
      exact hne hmem2

/-- Witness for C2: a room already holding 100 messages. -/
def c2room : Room :=
  { id := "r", name := "R", description := "", category := "General",
    languages := ["English"], maxParticipants := 10, isPrivate := false,
    createdAt := "t0", createdBy := "sa", participants := [],
    messages := (List.range 100).map (fun i => ⟨toString i, "s", "n", "c", "t"⟩) }

def c2spec : MessageSpec := ⟨none, none, none, "hi", none⟩

theorem c2reg_bound :
    ∀ rid r, JsMap.get? [("r", c2room)] rid = some r → r.messages.length ≤ 100 := by
  intro rid r hg
  rw [JsMap.get?_cons] at hg
  split at hg
  · injection hg with hh
    rw [← hh]
    simp [c2room]
  · rw [JsMap.get?] at hg
    simp at hg

theorem claim_C2_message_log_bound_witness :
    (∀ rid r, JsMap.get? [("r", c2room)] rid = some r → r.messages.length ≤ 100) ∧
    (∀ rid r, JsMap.get? (runMsgOps [("r", c2room)] [⟨"r", c2spec, "f", "s2", "t2"⟩]) rid = some r →
       r.messages.length ≤ 100) ∧
    (∃ room', JsMap.get? (sendMessage [("r", c2room)] "r" c2spec "f" "s2" "t2").1 "r" = some room' ∧
       room'.messages = c2room.messages.drop 1 ++ [mkMessage c2spec "f" "s2" "t2"] ∧
       mkMessage c2spec "f" "s2" "t2" ∈ room'.messages ∧
       (∀ h0, c2room.messages.head? = some h0 → h0 ∉ c2room.messages.drop 1 →
         h0 ≠ mkMessage c2spec "f" "s2" "t2" → h0 ∉ room'.messages)) :=
  ⟨c2reg_bound,
   (claim_C2_message_log_bound [("r", c2room)] [⟨"r", c2spec, "f", "s2", "t2"⟩]
     "r" c2spec "f" "s2" "t2" c2reg_bound).1,
   (claim_C2_message_log_bound [("r", c2room)] [⟨"r", c2spec, "f", "s2", "t2"⟩]
     "r" c2spec "f" "s2" "t2" c2reg_bound).2 c2room rfl (by simp [c2room])⟩

/-- C7: create-room rejects a supplied id that is already registered (leaving
the registry unchanged), and otherwise inserts a room whose unspecified fields
take the defaults category "General", languages ["English"],
maxParticipants 10, isPrivate false. -/
theorem claim_C7_create_room_defaults (reg : Registry) (spec : RoomSpec)
    (freshId sid now : String) :
    (∀ i, spec.id = some i → i ≠ "" → JsMap.hasKey reg i = true →
       createRoom reg spec freshId sid now
         = (reg, [Event.roomCreationError "Room ID already exists"])) ∧
    (JsMap.hasKey reg (jsOrStr spec.id freshId) = false →
       spec.category = none → spec.languages = none →
       spec.maxParticipants = none → spec.isPrivate = none →
       ∃ room, JsMap.get? (createRoom reg spec freshId sid now).1 (jsOrStr spec.id freshId)
           = some room ∧
         room.category = "General" ∧ room.languages = ["English"] ∧
         room.maxParticipants = 10 ∧ room.isPrivate = false) := by
  constructor
  · intro i hid hne hk
    have hj : jsOrStr spec.id freshId = i := by
      rw [hid]
      simp [jsOrStr, hne]
    rw [createRoom]
    simp only [hj]
    rw [hk]
    rw [if_pos rfl]
  · intro hk hc hl hm hp
    rw [createRoom]
    simp only []
    rw [hk]
    rw [if_neg (by decide)]
    refine ⟨_, JsMap.get?_set_self _ _ _, ?_, ?_, ?_, ?_⟩
    · rw [hc]
      rfl
    · rw [hl]
      rfl
    · rw [hm]
      rfl
    · rw [hp]
      rfl

/-- Witness for C7: duplicate id rejected; fresh id gets the defaults. -/
def c7old : Room :=
  { id := "x", name := "X", description := "", category := "General",
    languages := ["English"], maxParticipants := 10, isPrivate := false,
    createdAt := "t0", createdBy := "sa", participants := [], messages := [] }

theorem claim_C7_create_room_defaults_witness :
    (createRoom [("x", c7old)] ⟨some "x", "N", none, none, none, none, none⟩ "f" "s" "t"
       = ([("x", c7old)], [Event.roomCreationError "Room ID already exists"])) ∧
    (∃ room, JsMap.get?
         (createRoom [("x", c7old)] ⟨some "y", "N", none, none, none, none, none⟩ "f" "s" "t").1
         (jsOrStr (some "y") "f") = some room ∧
       room.category = "General" ∧ room.languages = ["English"] ∧
       room.maxParticipants = 10 ∧ room.isPrivate = false) :=
  ⟨(claim_C7_create_room_defaults [("x", c7old)]
      ⟨some "x", "N", none, none, none, none, none⟩ "f" "s" "t").1 "x" rfl (by decide) rfl,
   (claim_C7_create_room_defaults [("x", c7old)]
      ⟨some "y", "N", none, none, none, none, none⟩ "f" "s" "t").2 rfl rfl rfl rfl rfl⟩

theorem format_participants_length (room : Room) :
    (formatRoomForClient room).participants.length = room.participants.length := by
  simp [formatRoomForClient, JsMap.values]

/-- C8: the public listing returns exactly the formatted rooms of the registry
that are not private and have spare capacity. -/
theorem claim_C8_public_room_listing (reg : Registry) (r : ClientRoom) :
    r ∈ getRooms reg ↔
      ∃ e ∈ reg, r = formatRoomForClient e.2 ∧ e.2.isPrivate = false ∧
        e.2.participants.length < e.2.maxParticipants := by
  simp only [getRooms, List.mem_filter, List.mem_map, Bool.and_eq_true,
    Bool.not_eq_true', decide_eq_true_eq]
  constructor
  · rintro ⟨⟨e, he, rfl⟩, hpriv, hcap⟩
    refine ⟨e, he, rfl, hpriv, ?_⟩
    rwa [format_participants_length] at hcap
  · rintro ⟨e, he, rfl, hpriv, hcap⟩
    refine ⟨⟨e, he, rfl⟩, hpriv, ?_⟩
    rw [format_participants_length]
    exact hcap

theorem length_pos_of_hasKey {α : Type} {m : List (String × α)} {k : String}
    (h : JsMap.hasKey m k = true) : 0 < m.length := by
  cases m with
  | nil => simp [JsMap.hasKey] at h
  | cons e t => simp

/-- C9: a join into a non-full room with an id already present does not reject
and does not grow the room: it replaces the stored record in place (new socket,
fresh flags, isHost recomputed to false). -/
theorem claim_C9_rejoin_replaces (reg : Registry) (roomId uid : String) (user : UserSpec)
    (sid now : String) (room : Room)
    (hroom : JsMap.get? reg roomId = some room)
    (hid : user.id = some uid) (hneid : uid ≠ "")
    (hmem : JsMap.hasKey room.participants uid = true)
    (hcap : room.participants.length < room.maxParticipants) :
    (joinRoom reg roomId user sid now).2 = [Event.roomState roomId, Event.userJoined uid] ∧
    ∃ room', JsMap.get? (joinRoom reg roomId user sid now).1 roomId = some room' ∧
      room'.participants.length = room.participants.length ∧
      JsMap.get? room'.participants uid = some
        { id := uid, name := user.name, avatar := jsOrStr user.avatar "",
          socketId := sid, isMuted := true,
          isVideoEnabled := jsOrBool user.isVideoEnabled false,
          isHost := false, joinedAt := now } := by
  have hk : JsMap.hasKey reg roomId = true := JsMap.hasKey_of_get? hroom
  have hpid : jsOrStr user.id sid = uid := by
    rw [hid]
    simp [jsOrStr, hneid]
  have hpos : 0 < room.participants.length := length_pos_of_hasKey hmem
  have hbeq : (room.participants.length == 0) = false := by
    cases hq : room.participants.length == 0
    · rfl
    · have h0 := beq_iff_eq.mp hq
      omega
  rw [joinRoom, hk, if_pos rfl, hroom]
  simp only []
  rw [if_neg (by omega)]
  rw [hpid, hbeq, jsOrBool_true]
  constructor
  · rfl
  · refine ⟨_, JsMap.get?_set_self _ _ _, ?_, ?_⟩
    · simp only []
      rw [JsMap.length_set, hmem, if_pos rfl]
    · simp only []
      rw [JsMap.get?_set_self]

/-- Witness for C9: participant "a" rejoins from a new socket. -/
def c9room : Room :=
  { id := "r", name := "R", description := "", category := "General",
    languages := ["English"], maxParticipants := 10, isPrivate := false,
    createdAt := "t0", createdBy := "sa",
    participants := [("a", ⟨"a", "A", "", "sa", true, false, true, "t0"⟩)],
    messages := [] }

theorem claim_C9_rejoin_replaces_witness :
    ((joinRoom [("r", c9room)] "r" ⟨some "a", "A2", none, some false, some true⟩ "sa2" "t1").2
       = [Event.roomState "r", Event.userJoined "a"]) ∧
    (∃ room', JsMap.get?
        (joinRoom [("r", c9room)] "r" ⟨some "a", "A2", none, some false, some true⟩ "sa2" "t1").1
        "r" = some room' ∧
      room'.participants.length = c9room.participants.length ∧
      JsMap.get? room'.participants "a" = some
        { id := "a", name := "A2", avatar := jsOrStr none "",
          socketId := "sa2", isMuted := true,
          isVideoEnabled := jsOrBool (some true) false,
          isHost := false, joinedAt := "t1" }) :=
  claim_C9_rejoin_replaces [("r", c9room)] "r" "a"
    ⟨some "a", "A2", none, some false, some true⟩ "sa2" "t1" c9room
    rfl rfl (by decide) rfl (by decide)

end EcoTalk
